import Mathlib

/-!
Verification development for the cloud-report API adapter of
`auto-daily-report` (`scripts/generate_report.py`).

Strings are modelled as `List Char` (Python `str` is a sequence of unicode
code points).  JSON-like values are a sum type mirroring the values produced
by `json.loads`.  Each Python function of the adapter is translated into an
executable Lean definition; properties of the adapter are then proved about
those definitions.
-/

/-- Python strings are modelled as lists of characters. -/
abbrev Str := List Char

/-- Shorthand converting a Lean string literal to the model type. -/
def cs (s : String) : Str := s.toList

/-- Opening curly brace character. -/
def obrace : Char := Char.ofNat 123

/-- Closing curly brace character. -/
def cbrace : Char := Char.ofNat 125

/-- ASCII whitespace as recognised by Python's `str.strip` and `\s`
(the source only ever meets ASCII whitespace). -/
def pyIsSpace (c : Char) : Bool :=
  c = ' ' || c = '\t' || c = '\n' || c = '\x0d' || c = '\x0c' || c = '\x0b'

/-- Python `str.strip()`: drop leading and trailing whitespace. -/
def pyStrip (s : Str) : Str :=
  ((s.dropWhile pyIsSpace).reverse.dropWhile pyIsSpace).reverse

/-- Python `str.split(sep)` for a one-character separator: `"".split(sep)`
is `[""]`, and consecutive separators yield empty pieces. -/
def splitChar (c : Char) : Str → List Str
  | [] => [[]]
  | x :: xs =>
    match splitChar c xs with
    | [] => if x = c then [[], []] else [[x]]
    | r :: rs => if x = c then [] :: r :: rs else (x :: r) :: rs

/-- Does `p` start the list `s`? -/
def startsWith : Str → Str → Bool
  | [], _ => true
  | _ :: _, [] => false
  | p :: ps, x :: xs => p = x && startsWith ps xs

/-- Python substring test `pat in s`. -/
def containsSub (pat : Str) : Str → Bool
  | [] => startsWith pat []
  | s@(_ :: xs) => startsWith pat s || containsSub pat xs

/-- ASCII lower-casing, as used by `str.lower()` / `re.IGNORECASE` on the
ASCII patterns of the source. -/
def lowerAscii (c : Char) : Char :=
  if 'A' ≤ c ∧ c ≤ 'Z' then Char.ofNat (c.toNat + 32) else c

/-- Case-insensitive list equality on the ASCII range. -/
def ciStartsWith (p s : Str) : Bool :=
  startsWith (p.map lowerAscii) (s.map lowerAscii)

/-- Index of the leftmost (case-insensitive) occurrence of `pat` in `s`. -/
def findCI (pat : Str) : Str → Option Nat
  | [] => if ciStartsWith pat [] then some 0 else none
  | s@(_ :: xs) =>
    if ciStartsWith pat s then some 0
    else (findCI pat xs).map (· + 1)

/-- Join a list of strings with a separator (`sep.join(chunks)`). -/
def joinWith (sep : Str) : List Str → Str
  | [] => []
  | [x] => x
  | x :: xs => x ++ sep ++ joinWith sep xs

/-- JSON-like values, as produced by Python's `json.loads`: numbers are
modelled as rationals (covering ints and the decimal literals of the
source), mappings as key/value lists in insertion order. -/
inductive JSON where
  | null : JSON
  | bool (b : Bool) : JSON
  | num (q : ℚ) : JSON
  | str (s : Str) : JSON
  | arr (xs : List JSON) : JSON
  | obj (kvs : List (Str × JSON)) : JSON

/-- Key lookup in a mapping (Python `d[k]` / `k in d`; keys are unique in a
Python dict, so first-match lookup is faithful). -/
def lookupKV (kvs : List (Str × JSON)) (k : Str) : Option JSON :=
  match kvs with
  | [] => none
  | (k', v) :: rest => if k' = k then some v else lookupKV rest k

/-- Python truthiness of a JSON-like value (`bool(v)`). -/
def pyTruthy : JSON → Bool
  | .null => false
  | .bool b => b
  | .num q => q != 0
  | .str s => !s.isEmpty
  | .arr xs => !xs.isEmpty
  | .obj kvs => !kvs.isEmpty

/-- Python `v in (None, "")`, as used by `_normalize_to_text`. -/
def isNoneOrEmptyStr : JSON → Bool
  | .null => true
  | .str [] => true
  | _ => false

/-- Lowercase hex digit. -/
def hexDigit (n : Nat) : Char :=
  if n < 10 then Char.ofNat (48 + n) else Char.ofNat (87 + n)

/-- Two lowercase hex digits of a byte. -/
def hex2 (n : Nat) : Str := [hexDigit (n / 16), hexDigit (n % 16)]

/-- Decimal digits of an integer (Python `str(int)`). -/
def intStr (n : Int) : Str := (toString n).toList

/-- Python `str()` of a decoded JSON number: integers print without a point,
terminating decimals with the fewest digits (covers every numeric literal
the adapter meets; the dyadic-artifact digits of Python float repr are out
of scope). -/
def ratDecStr (q : ℚ) : Str :=
  if q.den = 1 then intStr q.num
  else
    match (List.range 32).find? (fun k => (q * (10 : ℚ) ^ (k + 1)).den = 1) with
    | some k =>
      let k := k + 1
      let sign : Str := if q < 0 then ['-'] else []
      let scaled : Int := (|q| * (10 : ℚ) ^ k).num
      let ds := intStr scaled
      let ds := List.replicate (k + 1 - ds.length) '0' ++ ds
      sign ++ ds.take (ds.length - k) ++ ['.'] ++ ds.drop (ds.length - k)
    | none => intStr q.num ++ ['/'] ++ intStr (q.den : Int)

/-- One character of Python `repr` of a string, with the chosen quote. -/
def pyReprEsc (quote : Char) (c : Char) : Str :=
  if c = '\\' then ['\\', '\\']
  else if c = quote then ['\\', quote]
  else if c = '\n' then ['\\', 'n']
  else if c = '\x0d' then ['\\', 'r']
  else if c = '\t' then ['\\', 't']
  else if c.toNat < 32 || c.toNat = 127 then ['\\', 'x'] ++ hex2 c.toNat
  else [c]

/-- Python `repr` of a string: single-quoted unless the string holds a
single quote and no double quote. -/
def pyReprStr (s : Str) : Str :=
  let quote := if s.contains '\'' && !s.contains '"' then '"' else '\''
  [quote] ++ s.foldr (fun c acc => pyReprEsc quote c ++ acc) [] ++ [quote]

/-- Python `repr` of a JSON-like value (also `str` of lists and dicts). -/
def pyReprJ : JSON → Str
  | .null => cs "None"
  | .bool true => cs "True"
  | .bool false => cs "False"
  | .num q => ratDecStr q
  | .str s => pyReprStr s
  | .arr xs =>
    ['['] ++ joinWith (cs ", ") (xs.attach.map fun x => pyReprJ x.val) ++ [']']
  | .obj kvs =>
    [obrace] ++
      joinWith (cs ", ")
        (kvs.attach.map fun kv =>
          pyReprStr kv.val.1 ++ cs ": " ++ pyReprJ kv.val.2) ++
    [cbrace]
termination_by v => sizeOf v
decreasing_by
· have h := List.sizeOf_lt_of_mem x.2
  simp only [JSON.arr.sizeOf_spec]
  omega
· rcases kv with ⟨⟨k1, v1⟩, hm⟩
  have h := List.sizeOf_lt_of_mem hm
  simp only [Prod.mk.sizeOf_spec] at h
  simp only [JSON.obj.sizeOf_spec]
  omega

/-- Python `str()` of a JSON-like value. -/
def pyStrJ : JSON → Str
  | .str s => s
  | v => pyReprJ v

/-- One character of `json.dumps` string escaping. -/
def jsonEscChar (c : Char) : Str :=
  if c = '"' then ['\\', '"']
  else if c = '\\' then ['\\', '\\']
  else if c = '\n' then ['\\', 'n']
  else if c = '\x0d' then ['\\', 'r']
  else if c = '\t' then ['\\', 't']
  else if c = '\x08' then ['\\', 'b']
  else if c = '\x0c' then ['\\', 'f']
  else if c.toNat < 32 then ['\\', 'u', '0', '0'] ++ hex2 c.toNat
  else [c]

/-- `json.dumps` of a string body. -/
def jsonDumpStr (s : Str) : Str :=
  ['"'] ++ s.foldr (fun c acc => jsonEscChar c ++ acc) [] ++ ['"']

/-- `json.dumps(value, ensure_ascii=False)` with the default separators. -/
def jsonDumps : JSON → Str
  | .null => cs "null"
  | .bool true => cs "true"
  | .bool false => cs "false"
  | .num q => ratDecStr q
  | .str s => jsonDumpStr s
  | .arr xs =>
    ['['] ++ joinWith (cs ", ") (xs.attach.map fun x => jsonDumps x.val) ++ [']']
  | .obj kvs =>
    [obrace] ++
      joinWith (cs ", ")
        (kvs.attach.map fun kv =>
          jsonDumpStr kv.val.1 ++ cs ": " ++ jsonDumps kv.val.2) ++
    [cbrace]
termination_by v => sizeOf v
decreasing_by
· have h := List.sizeOf_lt_of_mem x.2
  simp only [JSON.arr.sizeOf_spec]
  omega
· rcases kv with ⟨⟨k1, v1⟩, hm⟩
  have h := List.sizeOf_lt_of_mem hm
  simp only [Prod.mk.sizeOf_spec] at h
  simp only [JSON.obj.sizeOf_spec]
  omega

/-- Digits (with Python's single-underscore grouping) after the first. -/
def pyIntDigitsAux : Nat → Str → Option Nat
  | acc, [] => some acc
  | acc, c :: rest =>
    if c.isDigit then pyIntDigitsAux (acc * 10 + (c.toNat - 48)) rest
    else if c = '_' then
      match rest with
      | c2 :: rest2 =>
        if c2.isDigit then pyIntDigitsAux (acc * 10 + (c2.toNat - 48)) rest2
        else none
      | [] => none
    else none

/-- Unsigned decimal literal as accepted by Python `int(str)`. -/
def pyIntCore : Str → Option Nat
  | [] => none
  | c :: rest => if c.isDigit then pyIntDigitsAux (c.toNat - 48) rest else none

/-- Python `int(part)`: surrounding whitespace and an optional sign are
accepted; failure models the `ValueError`. -/
def pyInt (s : Str) : Option Int :=
  match pyStrip s with
  | '+' :: rest => (pyIntCore rest).map Int.ofNat
  | '-' :: rest => (pyIntCore rest).map (fun n => -(n : Int))
  | t => (pyIntCore t).map Int.ofNat

/-- Python list indexing `xs[i]`: negative indices count from the end;
`none` models the `IndexError`. -/
def pyIndex (xs : List JSON) (i : Int) : Option JSON :=
  if 0 ≤ i then xs.get? i.toNat
  else
    let j := (xs.length : Int) + i
    if 0 ≤ j then xs.get? j.toNat else none

/-- The exceptions `extract_by_path` can raise, by failing segment. -/
inductive PathErr where
  | notAnInt (part : Str)
  | outOfRange (part : Str)
  | keyAbsent (part : Str)
  | scalarNav (part : Str)

/-- The segment loop of `extract_by_path`. -/
def navigate : JSON → List Str → Except PathErr JSON
  | cur, [] => .ok cur
  | cur, part :: rest =>
    match cur with
    | .arr xs =>
      match pyInt part with
      | none => .error (.notAnInt part)
      | some i =>
        match pyIndex xs i with
        | none => .error (.outOfRange part)
        | some v => navigate v rest
    | .obj kvs =>
      match lookupKV kvs part with
      | none => .error (.keyAbsent part)
      | some v => navigate v rest
    | _ => .error (.scalarNav part)

/-- `extract_by_path(data, path)`: empty path returns `data`, otherwise the
dotted segments are walked in order. -/
def extract_by_path (data : JSON) (path : Str) : Except PathErr JSON :=
  if path = [] then .ok data else navigate data (splitChar '.' path)

/-- Is there a `op … cl` span (case-insensitive, lazy) in `s`? -/
def hasSpanMatch (op cl : Str) (s : Str) : Bool :=
  match findCI op s with
  | none => false
  | some i => (findCI cl (s.drop (i + op.length))).isSome

/-- Global removal of lazy `op … cl` spans, case-insensitive, as performed
by `re.sub(op + "[\s\S]*?" + cl, "", s, flags=IGNORECASE)`.  The fuel
argument only bounds the number of matches; `s.length` is enough for the
nonempty delimiters the source uses, since every match consumes at least
one character. -/
def removeDelimitedAux (op cl : Str) : Nat → Str → Str
  | 0, s => s
  | fuel + 1, s =>
    match findCI op s with
    | none => s
    | some i =>
      match findCI cl (s.drop (i + op.length)) with
      | none => s
      | some j =>
        s.take i ++ removeDelimitedAux op cl fuel (s.drop (i + op.length + j + cl.length))

/-- `re.sub` of one delimited pattern of `_strip_think_blocks`. -/
def removeDelimited (op cl : Str) (s : Str) : Str :=
  removeDelimitedAux op cl s.length s

/-- Leftmost case-insensitive occurrence of either pattern (first pattern
preferred at equal positions, like regex alternation), with the length of
the matched pattern. -/
def findCI2 (p1 p2 : Str) : Str → Option (Nat × Nat)
  | [] =>
    if ciStartsWith p1 [] then some (0, p1.length)
    else if ciStartsWith p2 [] then some (0, p2.length)
    else none
  | s@(_ :: xs) =>
    if ciStartsWith p1 s then some (0, p1.length)
    else if ciStartsWith p2 s then some (0, p2.length)
    else (findCI2 p1 p2 xs).map (fun r => (r.1 + 1, r.2))

/-- Is there a fenced think/thinking/reasoning block in `s`?  (The regex
alternation `think|thinking|reasoning` tries `think` first, so an opening
fence is "```think" or "```reasoning".) -/
def hasFenceMatch (s : Str) : Bool :=
  match findCI2 (cs "```think") (cs "```reasoning") s with
  | none => false
  | some (i, L) => (findCI (cs "```") (s.drop (i + L))).isSome

/-- Global removal of ```` ```(?:think|thinking|reasoning)[\s\S]*?``` ````
blocks, fuel-bounded as for `removeDelimitedAux`. -/
def removeFenceAux : Nat → Str → Str
  | 0, s => s
  | fuel + 1, s =>
    match findCI2 (cs "```think") (cs "```reasoning") s with
    | none => s
    | some (i, L) =>
      match findCI (cs "```") (s.drop (i + L)) with
      | none => s
      | some j => s.take i ++ removeFenceAux fuel (s.drop (i + L + j + 3))

/-- `re.sub` of the fenced-block pattern of `_strip_think_blocks`. -/
def removeFence (s : Str) : Str := removeFenceAux s.length s

/-- Length of the leading run of characters satisfying `p`. -/
def countLeading (p : Char → Bool) (s : Str) : Nat := (s.takeWhile p).length

/-- The keyword alternation `(reasoning|thought|thinking)` of the
line-removal pattern, case-insensitive, anchored at the head of `s`;
returns the matched length. -/
def kwAt (s : Str) : Option Nat :=
  if ciStartsWith (cs "reasoning") s then some 9
  else if ciStartsWith (cs "thought") s then some 7
  else if ciStartsWith (cs "thinking") s then some 8
  else none

/-- Length of a match of `(?im)^\s*(reasoning|thought|thinking)\s*:\s*.*$`
anchored at the head of `s`.  The greedy `\s*` runs may span newlines and
the trailing `.*` stops before the next newline; each quantifier's maximal
extent is forced (a keyword or colon can never start inside a whitespace
run, and `$` holds wherever `.*` stops), so the match length is
deterministic. -/
def lineMatchLen (s : Str) : Option Nat :=
  let w := countLeading pyIsSpace s
  match kwAt (s.drop w) with
  | none => none
  | some L =>
    let w2 := countLeading pyIsSpace (s.drop (w + L))
    match s.drop (w + L + w2) with
    | ':' :: _ =>
      let w3 := countLeading pyIsSpace (s.drop (w + L + w2 + 1))
      let d := countLeading (fun c => c != '\n') (s.drop (w + L + w2 + 1 + w3))
      some (w + L + w2 + 1 + w3 + d)
    | _ => none

/-- Does the line-removal pattern match anywhere in `s` (`anchor` says
whether the head of `s` sits at a line start)? -/
def hasLineMatch : Bool → Str → Bool
  | anchor, s =>
    (anchor && (lineMatchLen s).isSome) ||
      match s with
      | [] => false
      | c :: rest => hasLineMatch (c == '\n') rest

/-- `re.sub` of the line-removal pattern: scan left to right, at each line
start remove a match and resume after it (a removed match never ends in a
newline, so the position after it is not a line start).  Fuel-bounded by
`s.length`: every step consumes at least one character. -/
def lineStripAux : Nat → Bool → Str → Str
  | 0, _, s => s
  | fuel + 1, anchor, s =>
    if anchor then
      match lineMatchLen s with
      | some e => lineStripAux fuel false (s.drop e)
      | none =>
        match s with
        | [] => []
        | c :: rest => c :: lineStripAux fuel (c == '\n') rest
    else
      match s with
      | [] => []
      | c :: rest => c :: lineStripAux fuel (c == '\n') rest

/-- `re.sub(r"(?im)^\s*(reasoning|thought|thinking)\s*:\s*.*$", "", s)`. -/
def lineStrip (s : Str) : Str := lineStripAux s.length true s

/-- One pass of `re.sub(r"\n{3,}", "\n\n", s)`: every maximal run of
three or more newlines collapses to exactly two.  Fuel-bounded by
`s.length`: every step consumes at least one character. -/
def collapseNLAux : Nat → Str → Str
  | 0, s => s
  | _ + 1, [] => []
  | fuel + 1, c :: rest =>
    if c = '\n' then
      (if 1 + (rest.takeWhile (fun x => x == '\n')).length ≥ 3 then ['\n', '\n']
       else List.replicate (1 + (rest.takeWhile (fun x => x == '\n')).length) '\n') ++
        collapseNLAux fuel (rest.dropWhile (fun x => x == '\n'))
    else c :: collapseNLAux fuel rest

/-- `re.sub(r"\n{3,}", "\n\n", s)`. -/
def collapseNL (s : Str) : Str := collapseNLAux s.length s

/-- `_strip_think_blocks(text)`: the three delimited-pattern removals in
order, then the line removal, then newline collapsing and a final strip. -/
def strip_think_blocks (text : Str) : Str :=
  let out := removeDelimited (cs "<think>") (cs "</think>") text
  let out := removeDelimited (cs "<reasoning>") (cs "</reasoning>") out
  let out := removeFence out
  let out := lineStrip out
  pyStrip (collapseNL out)

/-- The priority fields of the mapping branch of `_normalize_to_text`. -/
def priorityKeys : List Str :=
  [cs "final", cs "answer", cs "output_text", cs "text", cs "content"]

/-- First key of `ks` whose value in `kvs` is present and not `None`/`""`
(the `for k in (...)` loop of the mapping branch). -/
def firstFieldOf (kvs : List (Str × JSON)) : List Str → Option JSON
  | [] => none
  | k :: ks =>
    match lookupKV kvs k with
    | some v => if isNoneOrEmptyStr v then firstFieldOf kvs ks else some v
    | none => firstFieldOf kvs ks

/-- The nested `message` fallback of the mapping branch. -/
def messageField (kvs : List (Str × JSON)) : Option JSON :=
  match lookupKV kvs (cs "message") with
  | some v => if isNoneOrEmptyStr v then none else some v
  | none => none

/-- The `type` values that mark a reasoning block in a content-block list. -/
def thinkTypes : List Str := [cs "reasoning", cs "thought", cs "thinking"]

/-- `str(item.get("type", "")).lower()`. -/
def itemTypeOf (kvs : List (Str × JSON)) : Str :=
  (pyStrJ ((lookupKV kvs (cs "type")).getD (.str []))).map lowerAscii

/-- The chunk contributed by one element of a content-block list: `none`
when the element contributes nothing. -/
def itemChunk (strip : Bool) (item : JSON) : Option Str :=
  match item with
  | .obj kvs =>
    let itemType := itemTypeOf kvs
    if strip && thinkTypes.contains itemType then none
    else if itemType = cs "text" then
      let t := (lookupKV kvs (cs "text")).getD (.str [])
      if pyTruthy t then some (pyStrJ t) else none
    else
      match lookupKV kvs (cs "text") with
      | some tv => some (pyStrJ tv)
      | none =>
        match lookupKV kvs (cs "content") with
        | some cv => some (pyStrJ cv)
        | none => none
  | v => some (pyStrJ v)

theorem lookupKV_sizeOf {kvs : List (Str × JSON)} {k : Str} {v : JSON}
    (h : lookupKV kvs k = some v) : sizeOf v < sizeOf kvs := by
  induction kvs with
  | nil => simp [lookupKV] at h
  | cons kv rest ih =>
    rcases kv with ⟨k', v'⟩
    by_cases hk : k' = k
    · simp only [lookupKV, if_pos hk, Option.some.injEq] at h
      subst h
      simp only [List.cons.sizeOf_spec, Prod.mk.sizeOf_spec]
      omega
    · simp only [lookupKV, if_neg hk] at h
      have := ih h
      simp only [List.cons.sizeOf_spec]
      omega

theorem firstFieldOf_sizeOf {kvs : List (Str × JSON)} {ks : List Str}
    {v : JSON} (h : firstFieldOf kvs ks = some v) : sizeOf v < sizeOf kvs := by
  induction ks with
  | nil => simp [firstFieldOf] at h
  | cons k ks ih =>
    rw [firstFieldOf] at h
    cases hl : lookupKV kvs k with
    | none => rw [hl] at h; exact ih h
    | some w =>
      rw [hl] at h
      dsimp only at h
      by_cases he : isNoneOrEmptyStr w = true
      · rw [if_pos he] at h; exact ih h
      · rw [if_neg he] at h
        cases h
        exact lookupKV_sizeOf hl

theorem messageField_sizeOf {kvs : List (Str × JSON)} {v : JSON}
    (h : messageField kvs = some v) : sizeOf v < sizeOf kvs := by
  rw [messageField] at h
  cases hl : lookupKV kvs (cs "message") with
  | none => rw [hl] at h; cases h
  | some w =>
    rw [hl] at h
    dsimp only at h
    by_cases he : isNoneOrEmptyStr w = true
    · rw [if_pos he] at h; cases h
    · rw [if_neg he] at h
      cases h
      exact lookupKV_sizeOf hl

/-- `_normalize_to_text(value)`, with the `strip_think` flag explicit. -/
def normalize_to_text (strip : Bool) : JSON → Str
  | .arr items =>
    pyStrip
      (joinWith ['\n']
        ((items.filterMap (itemChunk strip)).filter (fun c => !c.isEmpty)))
  | .obj kvs =>
    match h1 : firstFieldOf kvs priorityKeys with
    | some v => normalize_to_text strip v
    | none =>
      match h2 : messageField kvs with
      | some v => normalize_to_text strip v
      | none => jsonDumps (.obj kvs)
  | v => pyStrip (pyStrJ v)
termination_by v => sizeOf v
decreasing_by
· have := firstFieldOf_sizeOf h1
  simp only [JSON.obj.sizeOf_spec]
  omega
· have := messageField_sizeOf h2
  simp only [JSON.obj.sizeOf_spec]
  omega

/-- The fixed fallback path list of `_extract_first_available`. -/
def fallback_paths : List Str :=
  [cs "choices.0.message.final", cs "choices.0.message.answer",
   cs "choices.0.message.content", cs "choices.0.text",
   cs "response.output_text", cs "output_text", cs "data.text", cs "text"]

/-- `[p.strip() for p in paths_csv.split(",") if p.strip()]`. -/
def configuredPaths (csv : Str) : List Str :=
  ((splitChar ',' csv).map pyStrip).filter (fun p => !p.isEmpty)

/-- The candidate list: configured paths, then each fallback appended
unless already present. -/
def buildPaths (csv : Str) : List Str :=
  fallback_paths.foldl (fun acc p => if p ∈ acc then acc else acc ++ [p])
    (configuredPaths csv)

/-- The failures `call_cloud_api` can raise after decoding. -/
inductive ApiErr where
  | extraction (paths : List Str) (lastErr : PathErr)
  | noPathsConfigured
  | emptyResponse

/-- The try-each-path loop of `_extract_first_available`, tracking
`last_err`. -/
def tryPathsLoop (data : JSON) (allPaths : List Str) :
    List Str → Option PathErr → Except ApiErr JSON
  | [], none => .error .noPathsConfigured
  | [], some e => .error (.extraction allPaths e)
  | p :: rest, _ =>
    match extract_by_path data p with
    | .ok v => .ok v
    | .error e => tryPathsLoop data allPaths rest (some e)

/-- `_extract_first_available(data, paths_csv)`. -/
def extract_first_available (data : JSON) (csv : Str) : Except ApiErr JSON :=
  tryPathsLoop data (buildPaths csv) (buildPaths csv) none

/-- `getenv(name, default)`: an unset, empty or whitespace-only value is
replaced by the default. -/
def getenvD (v : Option Str) (d : Str) : Str :=
  match v with
  | none => d
  | some s => if (pyStrip s).isEmpty then d else s

/-- The `response_paths_csv` resolution of `call_cloud_api`:
`REPORT_API_RESPONSE_PATHS` stripped, falling back to the stripped legacy
`REPORT_API_RESPONSE_PATH` (default `choices.0.message.content`) when
empty. -/
def responsePathsCsv (pathsEnv legacyEnv : Option Str) : Str :=
  let raw := pyStrip (getenvD pathsEnv [])
  let legacy := pyStrip (getenvD legacyEnv (cs "choices.0.message.content"))
  if raw.isEmpty then legacy else raw

/-- The tail of `call_cloud_api` after JSON decoding: extract, normalize,
optionally strip think blocks, and reject empty text. -/
def generateFromDecoded (stripThink : Bool) (csv : Str) (data : JSON) :
    Except ApiErr Str :=
  match extract_first_available data csv with
  | .error e => .error e
  | .ok value =>
    let text := normalize_to_text stripThink value
    let text := if stripThink then strip_think_blocks text else text
    if text.isEmpty then .error .emptyResponse else .ok text

/-- The placeholder token `{{key}}`. -/
def placeholder (k : Str) : Str := obrace :: obrace :: k ++ [cbrace, cbrace]

/-- Python `s.replace(pat, rep)`: all non-overlapping occurrences, left to
right (the empty pattern inserts `rep` around every character).
Fuel-bounded by `s.length + 1`: every step consumes at least one character
of `s`, and the final step emits the trailing `rep` of an empty pattern. -/
def pyReplaceAux (pat rep : Str) : Nat → Str → Str
  | 0, s => s
  | fuel + 1, s =>
    match s with
    | [] => if pat.isEmpty then rep else []
    | c :: rest =>
      if pat.isEmpty then rep ++ c :: pyReplaceAux pat rep fuel rest
      else if startsWith pat (c :: rest) then
        rep ++ pyReplaceAux pat rep fuel ((c :: rest).drop pat.length)
      else c :: pyReplaceAux pat rep fuel rest

/-- Python `s.replace(pat, rep)`. -/
def pyReplace (pat rep : Str) (s : Str) : Str :=
  pyReplaceAux pat rep (s.length + 1) s

/-- The string case of `replace_placeholders`: one `str.replace` per
binding, applied in mapping order to the running result. -/
def renderStr (bs : List (Str × Str)) (s : Str) : Str :=
  bs.foldl (fun acc kv => pyReplace (placeholder kv.1) kv.2 acc) s

/-- `replace_placeholders(obj, mapping)`. -/
def replace_placeholders (bs : List (Str × Str)) : JSON → JSON
  | .str s => .str (renderStr bs s)
  | .arr xs => .arr (xs.attach.map fun x => replace_placeholders bs x.val)
  | .obj kvs =>
    .obj (kvs.attach.map fun kv => (kv.val.1, replace_placeholders bs kv.val.2))
  | v => v
termination_by v => sizeOf v
decreasing_by
· have h := List.sizeOf_lt_of_mem x.2
  simp only [JSON.arr.sizeOf_spec]
  omega
· rcases kv with ⟨⟨k1, v1⟩, hm⟩
  have h := List.sizeOf_lt_of_mem hm
  simp only [Prod.mk.sizeOf_spec] at h
  simp only [JSON.obj.sizeOf_spec]
  omega

/-- `dict.pop(k)`: drop the binding of `k`. -/
def removeKey (k : Str) : List (Str × JSON) → List (Str × JSON)
  | [] => []
  | (k', v) :: rest => if k' = k then rest else (k', v) :: removeKey k rest

/-- `build_default_payload(model, system_prompt, user_prompt)`: the dict
literal with `"model": model if model else None`, then `pop("model")` when
that entry is `None`. -/
def build_default_payload (model system_prompt user_prompt : Str) :
    List (Str × JSON) :=
  let payload : List (Str × JSON) :=
    [(cs "model", if model.isEmpty then JSON.null else .str model),
     (cs "messages", .arr
        [.obj [(cs "role", .str (cs "system")), (cs "content", .str system_prompt)],
         .obj [(cs "role", .str (cs "user")), (cs "content", .str user_prompt)]]),
     (cs "temperature", .num (2 / 10)),
     (cs "top_p", .num (9 / 10)),
     (cs "stream", .bool false)]
  match lookupKV payload (cs "model") with
  | some .null => removeKey (cs "model") payload
  | _ => payload

/-- The seven required section headers of `ensure_minimum_sections`. -/
def requiredSections : List Str :=
  [cs "## What I Did Today", cs "## Problems / Blockers", cs "## Root Cause",
   cs "## Attempts & Fixes", cs "## Key Learnings", cs "## Metrics",
   cs "## Next Steps (Tomorrow)"]

/-- The fallback skeleton of `ensure_minimum_sections`. -/
def skeletonReport (date_str text : Str) : Str :=
  cs "# Daily Report - " ++ date_str ++
  cs "\n\n## What I Did Today\n- N/A\n\n## Problems / Blockers\n- N/A\n\n## Root Cause\n- N/A\n\n## Attempts & Fixes\n- N/A\n\n## Key Learnings\n- N/A\n\n## Metrics\n- N/A\n\n## Next Steps (Tomorrow)\n- [ ] N/A\n\n---\n\n### Raw Model Output\n" ++
  text ++ cs "\n"

/-- `ensure_minimum_sections(text, date_str)`. -/
def ensure_minimum_sections (text date_str : Str) : Str :=
  if requiredSections.all (fun sec => containsSub sec text) then text
  else skeletonReport date_str text

/-- The default chat-completion body as the spec describes it: the four
fixed entries, with a `model` entry present exactly when a model is
configured (key absence, not a null value). -/
def specDefaultPayload (model system_prompt user_prompt : Str) :
    List (Str × JSON) :=
  let base : List (Str × JSON) :=
    [(cs "messages", .arr
       [.obj [(cs "role", .str (cs "system")), (cs "content", .str system_prompt)],
        .obj [(cs "role", .str (cs "user")), (cs "content", .str user_prompt)]]),
     (cs "temperature", .num (2 / 10)),
     (cs "top_p", .num (9 / 10)),
     (cs "stream", .bool false)]
  if model.isEmpty then base else (cs "model", .str model) :: base

/-- C8: with no request template, the payload is exactly the default
chat-completion body, and the `model` key is present iff a model was
configured — with no model the key is entirely absent, not null. -/
theorem c8_default_payload (model system_prompt user_prompt : Str) :
    build_default_payload model system_prompt user_prompt =
      specDefaultPayload model system_prompt user_prompt ∧
    lookupKV (build_default_payload model system_prompt user_prompt) (cs "model") =
      (if model.isEmpty then none else some (.str model)) := by
  cases model with
  | nil => exact ⟨rfl, rfl⟩
  | cons c m => exact ⟨rfl, rfl⟩

theorem startsWith_append_of {p u : Str} (y : Str)
    (h : startsWith p u = true) : startsWith p (u ++ y) = true := by
  induction p generalizing u with
  | nil => simp [startsWith]
  | cons a ps ih =>
    cases u with
    | nil => simp [startsWith] at h
    | cons b us =>
      simp only [startsWith, Bool.and_eq_true] at h ⊢
      exact ⟨h.1, ih h.2⟩

theorem containsSub_append_left {p u : Str} (y : Str)
    (h : containsSub p u = true) : containsSub p (u ++ y) = true := by
  induction u with
  | nil =>
    simp only [containsSub] at h
    cases p with
    | nil => cases y <;> simp [containsSub, startsWith]
    | cons a ps => simp [startsWith] at h
  | cons b us ih =>
    simp only [containsSub, Bool.or_eq_true] at h ⊢
    rcases h with h | h
    · exact Or.inl (startsWith_append_of y h)
    · exact Or.inr (ih h)

theorem containsSub_append_right {p u : Str} (x : Str)
    (h : containsSub p u = true) : containsSub p (x ++ u) = true := by
  induction x with
  | nil => exact h
  | cons b xs ih =>
    simp only [List.cons_append, containsSub, Bool.or_eq_true]
    exact Or.inr ih

theorem headers_in_skeleton (date_str text : Str) :
    (requiredSections.all
      (fun sec => containsSub sec (skeletonReport date_str text))) = true := by
  have hbig : ∀ sec ∈ requiredSections,
      containsSub sec
        (cs "\n\n## What I Did Today\n- N/A\n\n## Problems / Blockers\n- N/A\n\n## Root Cause\n- N/A\n\n## Attempts & Fixes\n- N/A\n\n## Key Learnings\n- N/A\n\n## Metrics\n- N/A\n\n## Next Steps (Tomorrow)\n- [ ] N/A\n\n---\n\n### Raw Model Output\n") = true := by
    decide
  rw [List.all_eq_true]
  intro sec hsec
  have h1 := hbig sec hsec
  have h2 := containsSub_append_left (text ++ cs "\n") h1
  have h3 := containsSub_append_right (cs "# Daily Report - " ++ date_str) h2
  simpa [skeletonReport, List.append_assoc] using h3

/-- C9: `ensure_minimum_sections` is idempotent and its result always
contains all seven required section headers; a text already containing
all seven is returned unchanged. -/
theorem c9_ensure_minimum_sections (text date_str : Str) :
    (requiredSections.all
      (fun sec => containsSub sec (ensure_minimum_sections text date_str))) = true ∧
    ensure_minimum_sections (ensure_minimum_sections text date_str) date_str =
      ensure_minimum_sections text date_str ∧
    ((requiredSections.all (fun sec => containsSub sec text)) = true →
      ensure_minimum_sections text date_str = text) := by
  by_cases h : (requiredSections.all (fun sec => containsSub sec text)) = true
  · rw [ensure_minimum_sections, if_pos h]
    exact ⟨h, by rw [ensure_minimum_sections, if_pos h], fun _ => rfl⟩
  · rw [ensure_minimum_sections, if_neg h]
    refine ⟨headers_in_skeleton date_str text, ?_, fun hc => absurd hc h⟩
    rw [ensure_minimum_sections, if_pos (headers_in_skeleton date_str text)]

/-- Witness for C9 at a concrete report text that already contains every
required header. -/
theorem c9_ensure_minimum_sections_witness :
    (requiredSections.all (fun sec =>
      containsSub sec (cs "## What I Did Today\n## Problems / Blockers\n## Root Cause\n## Attempts & Fixes\n## Key Learnings\n## Metrics\n## Next Steps (Tomorrow)\n"))) = true ∧
    ensure_minimum_sections
      (cs "## What I Did Today\n## Problems / Blockers\n## Root Cause\n## Attempts & Fixes\n## Key Learnings\n## Metrics\n## Next Steps (Tomorrow)\n")
      (cs "2026-02-17") =
      cs "## What I Did Today\n## Problems / Blockers\n## Root Cause\n## Attempts & Fixes\n## Key Learnings\n## Metrics\n## Next Steps (Tomorrow)\n" :=
  ⟨by decide,
   (c9_ensure_minimum_sections
     (cs "## What I Did Today\n## Problems / Blockers\n## Root Cause\n## Attempts & Fixes\n## Key Learnings\n## Metrics\n## Next Steps (Tomorrow)\n")
     (cs "2026-02-17")).2.2 (by decide)⟩

/-- Did the extraction of one path succeed? -/
def resultIsOk : Except PathErr JSON → Bool
  | .ok _ => true
  | .error _ => false

/-- The value of a successful extraction. -/
def resultValue? : Except PathErr JSON → Option JSON
  | .ok v => some v
  | .error _ => none

theorem mem_foldl_dedup (l acc : List Str) (q : Str) :
    q ∈ l.foldl (fun acc p => if p ∈ acc then acc else acc ++ [p]) acc ↔
      q ∈ acc ∨ q ∈ l := by
  induction l generalizing acc with
  | nil => simp
  | cons p l ih =>
    rw [List.foldl_cons, ih]
    by_cases hp : p ∈ acc
    · rw [if_pos hp]
      constructor
      · rintro (h | h)
        · exact Or.inl h
        · exact Or.inr (List.mem_cons_of_mem p h)
      · rintro (h | h)
        · exact Or.inl h
        · rcases List.mem_cons.1 h with rfl | h
          · exact Or.inl hp
          · exact Or.inr h
    · rw [if_neg hp]
      simp only [List.mem_append, List.mem_singleton, List.mem_cons]
      tauto

theorem fallback_mem_buildPaths (csv : Str) {p : Str}
    (hp : p ∈ fallback_paths) : p ∈ buildPaths csv :=
  (mem_foldl_dedup fallback_paths (configuredPaths csv) p).2 (Or.inr hp)

theorem buildPaths_ne_nil (csv : Str) : buildPaths csv ≠ [] :=
  List.ne_nil_of_mem
    (fallback_mem_buildPaths csv (by simp [fallback_paths] : cs "text" ∈ fallback_paths))

theorem tryPathsLoop_ne_noPaths (data : JSON) (allPaths : List Str) :
    ∀ (ps : List Str) (le : Option PathErr), (ps = [] → le.isSome) →
      tryPathsLoop data allPaths ps le ≠ .error .noPathsConfigured := by
  intro ps
  induction ps with
  | nil =>
    intro le hle
    cases le with
    | none => simp at hle
    | some e => simp [tryPathsLoop]
  | cons p rest ih =>
    intro le _
    rw [tryPathsLoop]
    cases hx : extract_by_path data p with
    | ok v => simp
    | error e => exact ih (some e) (fun _ => rfl)

theorem tryPathsLoop_all_fail (data : JSON) (allPaths : List Str) :
    ∀ (ps : List Str) (le : Option PathErr),
      (∀ p ∈ ps, resultIsOk (extract_by_path data p) = false) →
      (ps = [] → le.isSome) →
      ∃ e, tryPathsLoop data allPaths ps le = .error (.extraction allPaths e) := by
  intro ps
  induction ps with
  | nil =>
    intro le _ hle
    cases le with
    | none => simp at hle
    | some e => exact ⟨e, rfl⟩
  | cons p rest ih =>
    intro le hfail _
    rw [tryPathsLoop]
    cases hx : extract_by_path data p with
    | ok v =>
      have := hfail p (List.mem_cons_self p rest)
      rw [hx] at this
      simp [resultIsOk] at this
    | error e =>
      exact ih (some e) (fun q hq => hfail q (List.mem_cons_of_mem p hq))
        (fun _ => rfl)

theorem tryPathsLoop_ok_iff (data : JSON) (allPaths : List Str) :
    ∀ (ps : List Str) (le : Option PathErr) (v : JSON),
      tryPathsLoop data allPaths ps le = .ok v ↔
        ps.findSome? (fun p => resultValue? (extract_by_path data p)) = some v := by
  intro ps
  induction ps with
  | nil =>
    intro le v
    cases le with
    | none => simp [tryPathsLoop, List.findSome?]
    | some e => simp [tryPathsLoop, List.findSome?]
  | cons p rest ih =>
    intro le v
    rw [tryPathsLoop, List.findSome?]
    cases hx : extract_by_path data p with
    | ok w => simp [resultValue?]
    | error e => simpa [resultValue?] using ih (some e) v

/-- C10: the candidate path list is never empty (the fixed fallbacks are
always appended), so the `No response paths configured` branch of
`_extract_first_available` is unreachable and every all-paths-failed
outcome carries the last underlying error. -/
theorem c10_no_paths_unreachable (csv : Str) (data : JSON) :
    buildPaths csv ≠ [] ∧
    extract_first_available data csv ≠ .error .noPathsConfigured ∧
    ((∀ p ∈ buildPaths csv, resultIsOk (extract_by_path data p) = false) →
      ∃ e, extract_first_available data csv =
        .error (.extraction (buildPaths csv) e)) := by
  refine ⟨buildPaths_ne_nil csv, ?_, ?_⟩
  · exact tryPathsLoop_ne_noPaths data (buildPaths csv) (buildPaths csv) none
      (fun h => absurd h (buildPaths_ne_nil csv))
  · intro hfail
    exact tryPathsLoop_all_fail data (buildPaths csv) (buildPaths csv) none hfail
      (fun h => absurd h (buildPaths_ne_nil csv))

/-- Witness for C10: with no configured paths and a `null` response body,
every candidate path fails and the reported error carries the full
candidate list together with a last underlying error. -/
theorem c10_no_paths_unreachable_witness :
    buildPaths (cs "") ≠ [] ∧
    extract_first_available JSON.null (cs "") ≠ .error .noPathsConfigured ∧
    (∃ e, extract_first_available JSON.null (cs "") =
      .error (.extraction (buildPaths (cs "")) e)) := by
  refine ⟨(c10_no_paths_unreachable (cs "") JSON.null).1,
          (c10_no_paths_unreachable (cs "") JSON.null).2.1,
          (c10_no_paths_unreachable (cs "") JSON.null).2.2 ?_⟩
  decide

/-- C4: `generate` never returns an empty string — a returned string is
non-empty, an all-paths-failed extraction surfaces as an extraction error
listing every attempted path with the last underlying error, and an empty
final text surfaces as the empty-response error. -/
theorem c4_never_empty (st : Bool) (csv : Str) (data : JSON) :
    (∀ t, generateFromDecoded st csv data = .ok t → t ≠ []) ∧
    ((∀ p ∈ buildPaths csv, resultIsOk (extract_by_path data p) = false) →
      ∃ e, generateFromDecoded st csv data =
        .error (.extraction (buildPaths csv) e)) ∧
    (∀ v, extract_first_available data csv = .ok v →
      (if st then strip_think_blocks (normalize_to_text st v)
       else normalize_to_text st v) = [] →
      generateFromDecoded st csv data = .error .emptyResponse) := by
  refine ⟨?_, ?_, ?_⟩
  · intro t h
    rw [generateFromDecoded] at h
    cases hx : extract_first_available data csv with
    | error e => rw [hx] at h; cases h
    | ok v =>
      rw [hx] at h
      dsimp only at h
      by_cases he :
          (if st then strip_think_blocks (normalize_to_text st v)
           else normalize_to_text st v).isEmpty = true
      · rw [if_pos he] at h; cases h
      · rw [if_neg he] at h
        cases h
        simpa using he
  · intro hfail
    obtain ⟨e, he⟩ := tryPathsLoop_all_fail data (buildPaths csv) (buildPaths csv)
      none hfail (fun h => absurd h (buildPaths_ne_nil csv))
    refine ⟨e, ?_⟩
    rw [generateFromDecoded]
    rw [show extract_first_available data csv =
      .error (.extraction (buildPaths csv) e) from he]
  · intro v hv hemp
    rw [generateFromDecoded, hv]
    dsimp only
    rw [hemp]
    rfl

/-- Witness for C4: a successful non-empty extraction, an all-paths-failed
response, and a structurally present but empty answer. -/
theorem c4_never_empty_witness :
    (generateFromDecoded false (cs "") (JSON.obj [(cs "text", .str (cs "Hi"))]) =
        .ok (cs "Hi") ∧ cs "Hi" ≠ []) ∧
    (∃ e, generateFromDecoded false (cs "") JSON.null =
      .error (.extraction (buildPaths (cs "")) e)) ∧
    generateFromDecoded false (cs "") (JSON.obj [(cs "text", .str [])]) =
      .error .emptyResponse := by
  have hx : extract_first_available (JSON.obj [(cs "text", .str (cs "Hi"))])
      (cs "") = .ok (.str (cs "Hi")) := rfl
  have hn : normalize_to_text false (.str (cs "Hi")) = cs "Hi" := by
    rw [normalize_to_text]
    all_goals first | rfl | exact fun _ h => JSON.noConfusion h
  have hok : generateFromDecoded false (cs "")
      (JSON.obj [(cs "text", .str (cs "Hi"))]) = .ok (cs "Hi") := by
    rw [generateFromDecoded, hx]
    simp [hn]
    decide
  have hn0 : normalize_to_text false (.str []) = [] := by
    rw [normalize_to_text]
    all_goals first | rfl | exact fun _ h => JSON.noConfusion h
  refine ⟨⟨hok, ?_⟩, ?_, ?_⟩
  · exact (c4_never_empty false (cs "") (JSON.obj [(cs "text", .str (cs "Hi"))])).1
      (cs "Hi") hok
  · exact (c4_never_empty false (cs "") JSON.null).2.1 (by decide)
  · exact (c4_never_empty false (cs "") (JSON.obj [(cs "text", .str [])])).2.2
      (.str []) rfl (by simp [hn0])

/-- The failing segment named by a path-resolution failure. -/
def pathErrSeg : PathErr → Str
  | .notAnInt p => p
  | .outOfRange p => p
  | .keyAbsent p => p
  | .scalarNav p => p

/-- Modelled on the spec wording of §4.1, amended for negative indices:
walk the dotted segments; on a sequence the segment must parse as a Python
integer, a non-negative index must be below the length and a negative
index counts from the end (valid iff at least `-length`); on a mapping the
segment is a key lookup; a scalar with remaining segments fails.  The
error names the failing segment. -/
def specWalk : JSON → List Str → Except Str JSON
  | cur, [] => .ok cur
  | cur, seg :: rest =>
    match cur with
    | .arr xs =>
      match pyInt seg with
      | none => .error seg
      | some i =>
        let j : Int := if i < 0 then (xs.length : Int) + i else i
        if h : 0 ≤ j ∧ j < (xs.length : Int) then
          specWalk (xs.get ⟨j.toNat, by omega⟩) rest
        else .error seg
    | .obj kvs =>
      match lookupKV kvs seg with
      | some v => specWalk v rest
      | none => .error seg
    | _ => .error seg

/-- The amended spec-side contract of `extract_by_path`. -/
def resolveSpecAmended (data : JSON) (path : Str) : Except Str JSON :=
  if path = [] then .ok data else specWalk data (splitChar '.' path)

/-- Modelled on the claim's words (C2, unamended): on a sequence the
segment must parse as a non-negative integer index, failing when it does
not or when it is out of bounds. -/
def specWalkClaim : JSON → List Str → Except Str JSON
  | cur, [] => .ok cur
  | cur, seg :: rest =>
    match cur with
    | .arr xs =>
      match pyInt seg with
      | none => .error seg
      | some i =>
        if h : 0 ≤ i ∧ i < (xs.length : Int) then
          specWalkClaim (xs.get ⟨i.toNat, by omega⟩) rest
        else .error seg
    | .obj kvs =>
      match lookupKV kvs seg with
      | some v => specWalkClaim v rest
      | none => .error seg
    | _ => .error seg

/-- The claim-side contract of `extract_by_path` (C2 as stated). -/
def resolveSpecClaim (data : JSON) (path : Str) : Except Str JSON :=
  if path = [] then .ok data else specWalkClaim data (splitChar '.' path)

theorem pyIndex_spec (xs : List JSON) (i : Int) :
    pyIndex xs i =
      if h : 0 ≤ (if i < 0 then (xs.length : Int) + i else i) ∧
          (if i < 0 then (xs.length : Int) + i else i) < (xs.length : Int) then
        some (xs.get ⟨(if i < 0 then (xs.length : Int) + i else i).toNat, by omega⟩)
      else none := by
  rcases Int.lt_or_le i 0 with hneg | hpos
  · simp only [if_pos hneg, pyIndex, if_neg (show ¬ (0 : Int) ≤ i by omega)]
    by_cases h : 0 ≤ (xs.length : Int) + i ∧ (xs.length : Int) + i < (xs.length : Int)
    · rw [dif_pos h, if_pos h.1]
      exact List.get?_eq_get (by omega)
    · rw [dif_neg h]
      by_cases h2 : (0 : Int) ≤ (xs.length : Int) + i
      · rw [if_pos h2]
        exact List.get?_eq_none.2 (by omega)
      · rw [if_neg h2]
  · simp only [if_neg (show ¬ i < 0 by omega), pyIndex, if_pos hpos]
    by_cases h : (0 : Int) ≤ i ∧ i < (xs.length : Int)
    · rw [dif_pos h]
      exact List.get?_eq_get (by omega)
    · rw [dif_neg h]
      exact List.get?_eq_none.2 (by omega)

theorem specWalk_eq (segs : List Str) : ∀ cur : JSON,
    specWalk cur segs = (navigate cur segs).mapError pathErrSeg := by
  induction segs with
  | nil => intro cur; rfl
  | cons seg rest ih =>
    intro cur
    cases cur with
    | arr xs =>
      cases hi : pyInt seg with
      | none => simp [specWalk, navigate, hi, Except.mapError, pathErrSeg]
      | some i =>
        simp only [specWalk, navigate, hi]
        rw [pyIndex_spec]
        by_cases h : 0 ≤ (if i < 0 then (xs.length : Int) + i else i) ∧
            (if i < 0 then (xs.length : Int) + i else i) < (xs.length : Int)
        · rw [dif_pos h, dif_pos h]
          exact ih _
        · rw [dif_neg h, dif_neg h]
          rfl
    | obj kvs =>
      cases hl : lookupKV kvs seg with
      | none => simp [specWalk, navigate, hl, Except.mapError, pathErrSeg]
      | some v =>
        simp only [specWalk, navigate, hl]
        exact ih v
    | null => simp [specWalk, navigate, Except.mapError, pathErrSeg]
    | bool b => simp [specWalk, navigate, Except.mapError, pathErrSeg]
    | num q => simp [specWalk, navigate, Except.mapError, pathErrSeg]
    | str s => simp [specWalk, navigate, Except.mapError, pathErrSeg]

/-- C2 (amended): `extract_by_path` resolves dotted paths exactly as the
spec describes, except that a sequence segment may be any Python integer:
a negative index counts from the end (valid iff at least `-length`); an
empty path returns the data unchanged; every failure is a path-resolution
error naming the failing segment. -/
theorem c2_extract_by_path_amended (data : JSON) (path : Str) :
    resolveSpecAmended data path =
      (extract_by_path data path).mapError pathErrSeg := by
  rw [resolveSpecAmended, extract_by_path]
  by_cases hp : path = []
  · rw [if_pos hp, if_pos hp]
    rfl
  · rw [if_neg hp, if_neg hp]
    exact specWalk_eq _ data

/-- C2 counterexample: the claim requires a sequence segment to parse as a
non-negative integer, failing otherwise; the code accepts `-1` and resolves
it to the last element, so `a.-1` on `{"a": [1, 2]}` succeeds with `2`
where the claim-side resolver fails. -/
theorem c2_counterexample :
    extract_by_path (JSON.obj [(cs "a", .arr [.num 1, .num 2])]) (cs "a.-1") =
      .ok (.num 2) ∧
    resolveSpecClaim (JSON.obj [(cs "a", .arr [.num 1, .num 2])]) (cs "a.-1") =
      .error (cs "-1") :=
  ⟨rfl, rfl⟩

/-- The value of a successful full extraction. -/
def apiValue? : Except ApiErr JSON → Option JSON
  | .ok v => some v
  | .error _ => none

theorem foldl_dedup_eq_filter (l : List Str) (hl : l.Nodup) :
    ∀ acc : List Str,
      l.foldl (fun acc p => if p ∈ acc then acc else acc ++ [p]) acc =
        acc ++ l.filter (fun p => decide (p ∉ acc)) := by
  induction l with
  | nil => intro acc; simp
  | cons p l ih =>
    intro acc
    have hnd : l.Nodup := (List.nodup_cons.1 hl).2
    have hpl : p ∉ l := (List.nodup_cons.1 hl).1
    rw [List.foldl_cons, List.filter_cons]
    by_cases hp : p ∈ acc
    · rw [if_pos hp, ih hnd]
      simp [hp]
    · rw [if_neg hp, ih hnd]
      have hcong : l.filter (fun q => decide (q ∉ acc ++ [p])) =
          l.filter (fun q => decide (q ∉ acc)) := by
        apply List.filter_congr
        intro q hq
        have hqp : q ≠ p := fun h => hpl (h ▸ hq)
        simp [List.mem_append, hqp, hp]
      rw [hcong]
      simp [hp, List.append_assoc]

theorem fallback_paths_nodup : fallback_paths.Nodup := by decide

theorem buildPaths_eq_filter (csv : Str) :
    buildPaths csv = configuredPaths csv ++
      fallback_paths.filter (fun p => decide (p ∉ configuredPaths csv)) :=
  foldl_dedup_eq_filter fallback_paths fallback_paths_nodup (configuredPaths csv)

theorem apiValue?_eq_some {r : Except ApiErr JSON} {v : JSON} :
    apiValue? r = some v ↔ r = .ok v := by
  cases r <;> simp [apiValue?]

theorem apiValue?_tryPathsLoop (data : JSON) (allPaths ps : List Str)
    (le : Option PathErr) :
    apiValue? (tryPathsLoop data allPaths ps le) =
      ps.findSome? (fun p => resultValue? (extract_by_path data p)) := by
  cases hr : ps.findSome? (fun p => resultValue? (extract_by_path data p)) with
  | some v =>
    exact apiValue?_eq_some.2 ((tryPathsLoop_ok_iff data allPaths ps le v).2 hr)
  | none =>
    cases hl : tryPathsLoop data allPaths ps le with
    | ok v =>
      rw [(tryPathsLoop_ok_iff data allPaths ps le v).1 hl] at hr
      cases hr
    | error e => rfl

/-- The configured candidate paths per the amended claim: the csv (with the
legacy value substituted verbatim when the primary variable is unset or
blank) is comma-split, each piece trimmed, empty pieces dropped. -/
def specConfigured (pathsEnv legacyEnv : Option Str) : List Str :=
  ((splitChar ',' (responsePathsCsv pathsEnv legacyEnv)).map pyStrip).filter
    (fun p => !p.isEmpty)

/-- The full candidate list per the amended claim: configured paths
followed by the fixed fallbacks not already present, in order. -/
def specCandidates (pathsEnv legacyEnv : Option Str) : List Str :=
  specConfigured pathsEnv legacyEnv ++
    fallback_paths.filter (fun p => decide (p ∉ specConfigured pathsEnv legacyEnv))

/-- C3 (amended): the candidate list is the configured paths (comma-split,
trimmed, empty pieces dropped; the legacy single-path variable, default
`choices.0.message.content`, substitutes for the csv when the primary
variable is unset — and is then likewise comma-split) followed by the
deduplicated fixed fallbacks, and extraction returns the value of the
first candidate that resolves. -/
theorem c3_candidate_paths_amended (pathsEnv legacyEnv : Option Str)
    (data : JSON) :
    buildPaths (responsePathsCsv pathsEnv legacyEnv) =
      specCandidates pathsEnv legacyEnv ∧
    apiValue? (extract_first_available data (responsePathsCsv pathsEnv legacyEnv)) =
      (specCandidates pathsEnv legacyEnv).findSome?
        (fun p => resultValue? (extract_by_path data p)) := by
  have hb : buildPaths (responsePathsCsv pathsEnv legacyEnv) =
      specCandidates pathsEnv legacyEnv :=
    buildPaths_eq_filter (responsePathsCsv pathsEnv legacyEnv)
  refine ⟨hb, ?_⟩
  rw [extract_first_available,
    apiValue?_tryPathsLoop data _ (buildPaths (responsePathsCsv pathsEnv legacyEnv)) none,
    hb]

/-- The candidate path list per the claim's words (C3, unamended): when
`REPORT_API_RESPONSE_PATHS` is unset the legacy single path is used as a
one-element list, otherwise the csv is comma-split and trimmed; the fixed
fallbacks are appended deduplicated. -/
def specClaimCandidates (pathsEnv legacyEnv : Option Str) : List Str :=
  let conf :=
    if (pyStrip (getenvD pathsEnv [])).isEmpty then
      [pyStrip (getenvD legacyEnv (cs "choices.0.message.content"))]
    else
      ((splitChar ',' (pyStrip (getenvD pathsEnv []))).map pyStrip).filter
        (fun p => !p.isEmpty)
  conf ++ fallback_paths.filter (fun p => decide (p ∉ conf))

/-- C3 counterexample: the claim uses the legacy path as a one-element
list, but the code comma-splits it too.  With `REPORT_API_RESPONSE_PATHS`
unset, `REPORT_API_RESPONSE_PATH = "a,b"` and response `{"a,b": 1}`, the
claim-side candidate list starts with the path `a,b`, which resolves to
`1`, while the code splits it into `a` and `b`, finds nothing, and fails
with an extraction error. -/
theorem c3_counterexample :
    (specClaimCandidates none (some (cs "a,b"))).findSome?
      (fun p => resultValue? (extract_by_path (JSON.obj [(cs "a,b", .num 1)]) p))
      = some (.num 1) ∧
    extract_first_available (JSON.obj [(cs "a,b", .num 1)])
        (responsePathsCsv none (some (cs "a,b"))) =
      .error (.extraction (cs "a" :: cs "b" :: fallback_paths)
        (.keyAbsent (cs "text"))) :=
  ⟨rfl, rfl⟩

/-- The mapping rule as the spec words it: the first of
`final, answer, output_text, text, content` that is present and neither
null nor the empty string; failing that, a present non-null non-empty
`message` field. -/
def specFieldPick (kvs : List (Str × JSON)) : Option JSON :=
  match
    [cs "final", cs "answer", cs "output_text", cs "text", cs "content"].findSome?
      (fun k =>
        match lookupKV kvs k with
        | some v => if isNoneOrEmptyStr v then none else some v
        | none => none) with
  | some v => some v
  | none =>
    match lookupKV kvs (cs "message") with
    | some v => if isNoneOrEmptyStr v then none else some v
    | none => none

theorem firstFieldOf_eq_findSome? (kvs : List (Str × JSON)) (ks : List Str) :
    firstFieldOf kvs ks =
      ks.findSome? (fun k =>
        match lookupKV kvs k with
        | some v => if isNoneOrEmptyStr v then none else some v
        | none => none) := by
  induction ks with
  | nil => rfl
  | cons k ks ih =>
    rw [firstFieldOf, List.findSome?]
    cases hl : lookupKV kvs k with
    | none => simpa using ih
    | some v =>
      by_cases he : isNoneOrEmptyStr v = true
      · simp only [he, if_true]
        simpa using ih
      · simp only [he, if_false]
        simp [he]

/-- C5: for every mapping, `_normalize_to_text` recurses into the first
priority field (`final, answer, output_text, text, content`) that is
present and neither null nor empty, then into a present non-null non-empty
`message` field, and otherwise serializes the whole mapping to a JSON
string — normalization of a mapping is total and always yields a string. -/
theorem c5_normalize_mapping (strip : Bool) (kvs : List (Str × JSON)) :
    normalize_to_text strip (.obj kvs) =
      (match specFieldPick kvs with
       | some v => normalize_to_text strip v
       | none => jsonDumps (.obj kvs)) := by
  rw [normalize_to_text]
  split
  next v h2 =>
    simp only [priorityKeys] at h2
    have hs : specFieldPick kvs = some v := by
      rw [specFieldPick, ← firstFieldOf_eq_findSome? kvs, h2]
    rw [hs]
  next h2 =>
    simp only [priorityKeys] at h2
    split
    next w h3 =>
      have hs : specFieldPick kvs = some w := by
        rw [specFieldPick, ← firstFieldOf_eq_findSome? kvs, h2]
        exact h3
      rw [hs]
    next h3 =>
      have hs : specFieldPick kvs = none := by
        rw [specFieldPick, ← firstFieldOf_eq_findSome? kvs, h2]
        exact h3
      rw [hs]

/-- The content-block rule per the amended claim: a mapping element with a
think-type is skipped entirely when stripping is enabled; a mapping
element whose stringified, lowercased `type` equals `text` contributes its
stringified `text` field only when that field is present and truthy; any
other mapping element prefers a present `text` field, then a present
`content` field, stringified; a non-mapping element is stringified
directly. -/
def specSeqChunkA (strip : Bool) (item : JSON) : Option Str :=
  match item with
  | .obj kvs =>
    if strip && thinkTypes.contains (itemTypeOf kvs) then none
    else if itemTypeOf kvs = cs "text" then
      match lookupKV kvs (cs "text") with
      | some t => if pyTruthy t then some (pyStrJ t) else none
      | none => none
    else
      match lookupKV kvs (cs "text") with
      | some tv => some (pyStrJ tv)
      | none =>
        match lookupKV kvs (cs "content") with
        | some cv => some (pyStrJ cv)
        | none => none
  | v => some (pyStrJ v)

/-- The sequence rule per the amended claim: surviving non-empty chunks
joined with newline, then trimmed. -/
def specSeqNormalizeA (strip : Bool) (items : List JSON) : Str :=
  pyStrip
    (joinWith ['\n']
      ((items.filterMap (specSeqChunkA strip)).filter (fun c => !c.isEmpty)))

theorem itemChunk_eq_spec (strip : Bool) (item : JSON) :
    itemChunk strip item = specSeqChunkA strip item := by
  cases item with
  | obj kvs =>
    rw [itemChunk, specSeqChunkA]
    by_cases h1 : (strip && thinkTypes.contains (itemTypeOf kvs)) = true
    · rw [if_pos h1, if_pos h1]
    · rw [if_neg h1, if_neg h1]
      by_cases h2 : itemTypeOf kvs = cs "text"
      · rw [if_pos h2, if_pos h2]
        cases hl : lookupKV kvs (cs "text") with
        | some t => simp [hl]
        | none => simp [hl, pyTruthy]
      · rw [if_neg h2, if_neg h2]
  | null => rfl
  | bool b => rfl
  | num q => rfl
  | str s => rfl
  | arr xs => rfl

/-- C6 (amended): `_normalize_to_text` on a sequence joins the surviving
non-empty stringified chunks with newline and trims, skipping think-typed
mapping elements when stripping is enabled — with the correction that an
element typed `text` contributes its `text` field only when that field is
truthy (and never falls back to `content`); the spec's example
normalizes to `"keep"`. -/
theorem c6_normalize_sequence_amended :
    (∀ (strip : Bool) (items : List JSON),
      normalize_to_text strip (.arr items) = specSeqNormalizeA strip items) ∧
    normalize_to_text true (.arr
      [.obj [(cs "type", .str (cs "reasoning")), (cs "text", .str (cs "skip"))],
       .obj [(cs "type", .str (cs "text")), (cs "text", .str (cs "keep"))]]) =
      cs "keep" := by
  constructor
  · intro strip items
    rw [normalize_to_text, specSeqNormalizeA,
      show itemChunk strip = specSeqChunkA strip from funext (itemChunk_eq_spec strip)]
  · rw [normalize_to_text]
    rfl

/-- The content-block rule per the claim's words (C6, unamended): for a
surviving mapping element a `text` field is preferred, then a `content`
field, stringified unconditionally. -/
def specSeqChunkClaim (strip : Bool) (item : JSON) : Option Str :=
  match item with
  | .obj kvs =>
    if strip && thinkTypes.contains (itemTypeOf kvs) then none
    else
      match lookupKV kvs (cs "text") with
      | some tv => some (pyStrJ tv)
      | none =>
        match lookupKV kvs (cs "content") with
        | some cv => some (pyStrJ cv)
        | none => none
  | v => some (pyStrJ v)

/-- The sequence normalization per the claim's words (C6, unamended). -/
def specSeqNormalizeClaim (strip : Bool) (items : List JSON) : Str :=
  pyStrip
    (joinWith ['\n']
      ((items.filterMap (specSeqChunkClaim strip)).filter (fun c => !c.isEmpty)))

/-- C6 counterexample: on `[{"type": "text", "text": 0}]` the claim's rule
stringifies the `text` field and yields `"0"`, but the code's `if t:`
truthiness guard drops the falsy `0`, so normalization yields `""`. -/
theorem c6_counterexample :
    specSeqNormalizeClaim true
      [.obj [(cs "type", .str (cs "text")), (cs "text", .num 0)]] = cs "0" ∧
    normalize_to_text true
      (.arr [.obj [(cs "type", .str (cs "text")), (cs "text", .num 0)]]) = [] := by
  constructor
  · have h0 : pyStrJ (JSON.num 0) = cs "0" := by
      rw [pyStrJ, pyReprJ]
      all_goals first | decide | exact fun _ h => JSON.noConfusion h
    have hstep : specSeqNormalizeClaim true
        [.obj [(cs "type", .str (cs "text")), (cs "text", .num 0)]] =
        pyStrip (joinWith ['\n']
          ([pyStrJ (JSON.num 0)].filter (fun c => !c.isEmpty))) := rfl
    rw [hstep, h0]
    rfl
  · rw [normalize_to_text]
    rfl

theorem replace_placeholders_str (bs : List (Str × Str)) (s : Str) :
    replace_placeholders bs (.str s) = .str (renderStr bs s) := by
  rw [replace_placeholders]

theorem replace_placeholders_arr (bs : List (Str × Str)) (xs : List JSON) :
    replace_placeholders bs (.arr xs) = .arr (xs.map (replace_placeholders bs)) := by
  rw [replace_placeholders]
  exact congrArg JSON.arr (List.attach_map_val xs (replace_placeholders bs))

theorem replace_placeholders_obj (bs : List (Str × Str))
    (kvs : List (Str × JSON)) :
    replace_placeholders bs (.obj kvs) =
      .obj (kvs.map (fun kv => (kv.1, replace_placeholders bs kv.2))) := by
  rw [replace_placeholders]
  exact congrArg JSON.obj
    (List.attach_map_val kvs (fun kv => (kv.1, replace_placeholders bs kv.2)))

/-- C7 (amended): `replace_placeholders` rebuilds sequences and mappings
with every element rendered recursively, passes non-string scalars through
unchanged, and transforms every string by applying one `str.replace` per
binding in mapping order — so a binding value that itself contains a later
binding's placeholder is substituted again, while placeholders matching no
binding are left verbatim; the input template is never mutated (the model
is pure); the spec's example renders as stated. -/
theorem c7_render_amended :
    (∀ (bs : List (Str × Str)) (s : Str),
      replace_placeholders bs (.str s) = .str (renderStr bs s)) ∧
    (∀ (bs : List (Str × Str)) (xs : List JSON),
      replace_placeholders bs (.arr xs) = .arr (xs.map (replace_placeholders bs))) ∧
    (∀ (bs : List (Str × Str)) (kvs : List (Str × JSON)),
      replace_placeholders bs (.obj kvs) =
        .obj (kvs.map (fun kv => (kv.1, replace_placeholders bs kv.2)))) ∧
    (∀ bs : List (Str × Str), replace_placeholders bs .null = .null) ∧
    (∀ (bs : List (Str × Str)) (b : Bool),
      replace_placeholders bs (.bool b) = .bool b) ∧
    (∀ (bs : List (Str × Str)) (q : ℚ),
      replace_placeholders bs (.num q) = .num q) ∧
    replace_placeholders [(cs "x", cs "1"), (cs "y", cs "2")]
      (.obj [(cs "a", .str (placeholder (cs "x"))),
             (cs "b", .arr [.str (placeholder (cs "y")), .num 1])]) =
      .obj [(cs "a", .str (cs "1")), (cs "b", .arr [.str (cs "2"), .num 1])] := by
  refine ⟨replace_placeholders_str, replace_placeholders_arr,
    replace_placeholders_obj,
    fun bs => by rw [replace_placeholders] <;> exact fun _ h => JSON.noConfusion h,
    fun bs b => by rw [replace_placeholders] <;> exact fun _ h => JSON.noConfusion h,
    fun bs q => by rw [replace_placeholders] <;> exact fun _ h => JSON.noConfusion h,
    ?_⟩
  rw [replace_placeholders_obj]
  simp only [List.map]
  rw [replace_placeholders_str, replace_placeholders_arr]
  simp only [List.map]
  rw [replace_placeholders_str,
    show replace_placeholders [(cs "x", cs "1"), (cs "y", cs "2")] (.num 1) =
      .num 1 from by
        rw [replace_placeholders] <;> exact fun _ h => JSON.noConfusion h]
  rfl

/-- Simultaneous placeholder substitution as the claim's words describe it
(C7, unamended): every occurrence of `{{key}}` in the string is replaced
by the corresponding binding value, anything else — including placeholders
without a matching binding — is left verbatim.  Fuel-bounded by
`s.length`: every step consumes at least one character. -/
def specSimulRenderAux (bs : List (Str × Str)) : Nat → Str → Str
  | 0, s => s
  | _ + 1, [] => []
  | fuel + 1, c :: rest =>
    match bs.findSome? (fun kv =>
        if startsWith (placeholder kv.1) (c :: rest) then some kv else none) with
    | some kv =>
      kv.2 ++ specSimulRenderAux bs fuel ((c :: rest).drop (placeholder kv.1).length)
    | none => c :: specSimulRenderAux bs fuel rest

/-- Simultaneous placeholder substitution (C7, unamended). -/
def specSimulRender (bs : List (Str × Str)) (s : Str) : Str :=
  specSimulRenderAux bs s.length s

/-- C7 counterexample: with bindings `x ↦ "{{y}}", y ↦ "2"` in that order,
the claim's simultaneous replacement turns `"{{x}}"` into the verbatim
text `"{{y}}"`, but the code's sequential per-binding `str.replace` then
substitutes `y` into the intermediate result and returns `"2"`. -/
theorem c7_counterexample :
    replace_placeholders [(cs "x", placeholder (cs "y")), (cs "y", cs "2")]
      (.str (placeholder (cs "x"))) = .str (cs "2") ∧
    specSimulRender [(cs "x", placeholder (cs "y")), (cs "y", cs "2")]
      (placeholder (cs "x")) = placeholder (cs "y") ∧
    (cs "2" : Str) ≠ placeholder (cs "y") := by
  refine ⟨?_, rfl, by decide⟩
  rw [replace_placeholders_str]
  rfl

theorem dropWhile_head_false {p : Char → Bool} :
    ∀ {l : Str} {c : Char} {t : Str}, l.dropWhile p = c :: t → p c = false := by
  intro l
  induction l with
  | nil => intro c t h; cases h
  | cons a l ih =>
    intro c t h
    rw [List.dropWhile_cons] at h
    by_cases hp : p a = true
    · rw [if_pos hp] at h
      exact ih h
    · rw [if_neg hp] at h
      cases h
      simpa using hp

theorem dropWhile_eq_self_of_head {p : Char → Bool} {l : Str}
    (h : ∀ c t, l = c :: t → p c = false) : l.dropWhile p = l := by
  cases l with
  | nil => rfl
  | cons c t =>
    rw [List.dropWhile_cons, if_neg]
    simp [h c t rfl]

theorem dropWhile_idem {p : Char → Bool} (l : Str) :
    (l.dropWhile p).dropWhile p = l.dropWhile p :=
  dropWhile_eq_self_of_head (fun _ _ hc => dropWhile_head_false hc)

theorem pyStrip_idem (t : Str) : pyStrip (pyStrip t) = pyStrip t := by
  have husplit : (t.dropWhile pyIsSpace).reverse.takeWhile pyIsSpace ++
      (t.dropWhile pyIsSpace).reverse.dropWhile pyIsSpace =
      (t.dropWhile pyIsSpace).reverse := List.takeWhile_append_dropWhile _ _
  have hu : t.dropWhile pyIsSpace =
      ((t.dropWhile pyIsSpace).reverse.dropWhile pyIsSpace).reverse ++
        ((t.dropWhile pyIsSpace).reverse.takeWhile pyIsSpace).reverse := by
    rw [← List.reverse_append, husplit, List.reverse_reverse]
  have hd : ∀ c t', pyStrip t = c :: t' → pyIsSpace c = false := by
    intro c t' hc
    rw [show pyStrip t =
      ((t.dropWhile pyIsSpace).reverse.dropWhile pyIsSpace).reverse
      from rfl] at hc
    rw [hc] at hu
    exact dropWhile_head_false hu
  show (((pyStrip t).dropWhile pyIsSpace).reverse.dropWhile pyIsSpace).reverse
      = pyStrip t
  rw [dropWhile_eq_self_of_head hd]
  conv_lhs => rw [show pyStrip t =
    ((t.dropWhile pyIsSpace).reverse.dropWhile pyIsSpace).reverse from rfl]
  rw [List.reverse_reverse, dropWhile_idem]
  rfl

/-- No run of three or more newlines occurs in `t`. -/
def noTriple (t : Str) : Bool := !containsSub (cs "\n\n\n") t

theorem noTriple_append_right {x y : Str} (h : noTriple (x ++ y) = true) :
    noTriple y = true := by
  rw [noTriple, Bool.not_eq_true'] at h ⊢
  by_contra hy
  rw [Bool.not_eq_false] at hy
  rw [containsSub_append_right x hy] at h
  cases h

theorem noTriple_append_left {x y : Str} (h : noTriple (x ++ y) = true) :
    noTriple x = true := by
  rw [noTriple, Bool.not_eq_true'] at h ⊢
  by_contra hx
  rw [Bool.not_eq_false] at hx
  rw [containsSub_append_left y hx] at h
  cases h

theorem noTriple_cons {c : Char} {t : Str} (h : noTriple (c :: t) = true) :
    noTriple t = true :=
  noTriple_append_right (x := [c]) h

theorem noTriple_pyStrip {t : Str} (h : noTriple t = true) :
    noTriple (pyStrip t) = true := by
  have husplit : (t.dropWhile pyIsSpace).reverse.takeWhile pyIsSpace ++
      (t.dropWhile pyIsSpace).reverse.dropWhile pyIsSpace =
      (t.dropWhile pyIsSpace).reverse := List.takeWhile_append_dropWhile _ _
  have hu : t.dropWhile pyIsSpace =
      pyStrip t ++ ((t.dropWhile pyIsSpace).reverse.takeWhile pyIsSpace).reverse := by
    rw [show pyStrip t =
      ((t.dropWhile pyIsSpace).reverse.dropWhile pyIsSpace).reverse from rfl,
      ← List.reverse_append, husplit, List.reverse_reverse]
  have ht : t = t.takeWhile pyIsSpace ++ t.dropWhile pyIsSpace :=
    (List.takeWhile_append_dropWhile _ _).symm
  have h1 : noTriple (t.dropWhile pyIsSpace) = true :=
    noTriple_append_right (ht ▸ h)
  exact noTriple_append_left (hu ▸ h1)


theorem startsWith_cons_false {p x : Char} {ps xs : Str} (h : p ≠ x) :
    startsWith (p :: ps) (x :: xs) = false := by
  rw [startsWith]
  simp [h]

theorem collapseNLAux_head (fuel : Nat) (t : Str)
    (h : t = [] ∨ ∃ d t', t = d :: t' ∧ (d == '\n') = false) :
    collapseNLAux fuel t = [] ∨
      ∃ d t', collapseNLAux fuel t = d :: t' ∧ (d == '\n') = false := by
  rcases h with rfl | ⟨d, t', rfl, hd⟩
  · cases fuel with
    | zero => exact Or.inl rfl
    | succ n => exact Or.inl rfl
  · cases fuel with
    | zero => exact Or.inr ⟨d, t', rfl, hd⟩
    | succ n =>
      rw [collapseNLAux, if_neg (by simpa using hd : ¬ d = '\n')]
      exact Or.inr ⟨d, collapseNLAux n t', rfl, hd⟩

theorem startsWith_one_nl {X : Str}
    (hh : X = [] ∨ ∃ d t', X = d :: t' ∧ (d == '\n') = false) :
    startsWith ['\n'] X = false := by
  rcases hh with rfl | ⟨d, t', rfl, hd⟩
  · rfl
  · exact startsWith_cons_false (Ne.symm (by simpa using hd))

theorem startsWith_two_nl {X : Str}
    (hh : X = [] ∨ ∃ d t', X = d :: t' ∧ (d == '\n') = false) :
    startsWith ['\n', '\n'] X = false := by
  rcases hh with rfl | ⟨d, t', rfl, hd⟩
  · rfl
  · exact startsWith_cons_false (Ne.symm (by simpa using hd))

theorem noTriple_cons_of_ne {c : Char} {X : Str} (hc : c ≠ '\n')
    (hX : noTriple X = true) : noTriple (c :: X) = true := by
  rw [noTriple, show cs "\n\n\n" = ['\n', '\n', '\n'] from rfl] at hX ⊢
  rw [containsSub, startsWith_cons_false (Ne.symm hc)]
  simpa using hX

theorem noTriple_nl_cons {X : Str} (hX : noTriple X = true)
    (hh : X = [] ∨ ∃ d t', X = d :: t' ∧ (d == '\n') = false) :
    noTriple ('\n' :: X) = true := by
  rw [noTriple, show cs "\n\n\n" = ['\n', '\n', '\n'] from rfl] at hX ⊢
  rw [containsSub]
  have hsw : startsWith ['\n', '\n', '\n'] ('\n' :: X) =
      startsWith ['\n', '\n'] X := by
    rw [startsWith]
    simp
  rw [hsw, startsWith_two_nl hh]
  simpa using hX

theorem noTriple_two_nl_cons {X : Str} (hX : noTriple X = true)
    (hh : X = [] ∨ ∃ d t', X = d :: t' ∧ (d == '\n') = false) :
    noTriple ('\n' :: '\n' :: X) = true := by
  have h2 := noTriple_nl_cons hX hh
  rw [noTriple, show cs "\n\n\n" = ['\n', '\n', '\n'] from rfl] at h2 ⊢
  rw [containsSub]
  have hsw : startsWith ['\n', '\n', '\n'] ('\n' :: '\n' :: X) =
      startsWith ['\n'] X := by
    rw [startsWith, startsWith]
    simp
  rw [hsw, startsWith_one_nl hh]
  simpa using h2

theorem takeWhile_nil_dropWhile {p : Char → Bool} {l : Str}
    (h : (l.takeWhile p).length = 0) : l.dropWhile p = l := by
  cases l with
  | nil => rfl
  | cons c t =>
    rw [List.takeWhile_cons] at h
    by_cases hp : p c = true
    · rw [if_pos hp] at h
      simp at h
    · rw [List.dropWhile_cons, if_neg (by simpa using hp)]

theorem dropWhile_length_le {p : Char → Bool} (l : Str) :
    (l.dropWhile p).length ≤ l.length := by
  induction l with
  | nil => simp
  | cons c t ih =>
    rw [List.dropWhile_cons]
    by_cases hp : p c = true
    · rw [if_pos hp]
      simp only [List.length_cons]
      omega
    · rw [if_neg hp]

theorem collapseNLAux_noTriple : ∀ (fuel : Nat) (t : Str), t.length ≤ fuel →
    noTriple (collapseNLAux fuel t) = true := by
  intro fuel
  induction fuel with
  | zero =>
    intro t ht
    have ht0 : t = [] := List.length_eq_zero.1 (Nat.le_zero.1 ht)
    subst ht0
    decide
  | succ n ih =>
    intro t ht
    cases t with
    | nil => rw [collapseNLAux]; decide
    | cons c rest =>
      have hrl : rest.length ≤ n := by
        simp only [List.length_cons] at ht
        omega
      rw [collapseNLAux]
      by_cases hc : c = '\n'
      · rw [if_pos hc]
        have htl_len : (rest.dropWhile (fun x => x == '\n')).length ≤ n :=
          le_trans (dropWhile_length_le rest) hrl
        have hX := ih _ htl_len
        have hh := collapseNLAux_head n (rest.dropWhile (fun x => x == '\n'))
          (by
            cases hdw : rest.dropWhile (fun x => x == '\n') with
            | nil => exact Or.inl rfl
            | cons d t' =>
              exact Or.inr ⟨d, t', rfl,
                dropWhile_head_false (p := fun x => x == '\n') hdw⟩)
        by_cases h3 : 1 + (rest.takeWhile (fun x => x == '\n')).length ≥ 3
        · rw [if_pos h3]
          exact noTriple_two_nl_cons hX hh
        · rw [if_neg h3]
          cases htk : (rest.takeWhile (fun x => x == '\n')).length with
          | zero => exact noTriple_nl_cons hX hh
          | succ m =>
            have hm : m = 0 := by omega
            subst hm
            exact noTriple_two_nl_cons hX hh
      · rw [if_neg hc]
        exact noTriple_cons_of_ne hc (ih rest hrl)

theorem takeWhile_nl_two {rest : Str}
    (h : 2 ≤ (rest.takeWhile (fun x => x == '\n')).length) :
    ∃ r2, rest = '\n' :: '\n' :: r2 := by
  cases rest with
  | nil => simp [List.takeWhile] at h
  | cons d r =>
    rw [List.takeWhile_cons] at h
    by_cases hd : (d == '\n') = true
    · rw [if_pos hd] at h
      have hd' : d = '\n' := by simpa using hd
      cases r with
      | nil => simp [List.takeWhile] at h
      | cons e r2 =>
        rw [List.takeWhile_cons] at h
        by_cases he : (e == '\n') = true
        · exact ⟨r2, by rw [hd', show e = '\n' from by simpa using he]⟩
        · rw [if_neg he] at h
          simp at h
    · rw [if_neg hd] at h
      simp at h

theorem takeWhile_nl_one {rest : Str}
    (h : (rest.takeWhile (fun x => x == '\n')).length = 1) :
    ∃ r2, rest = '\n' :: r2 ∧ (r2.takeWhile (fun x => x == '\n')).length = 0 := by
  cases rest with
  | nil => simp [List.takeWhile] at h
  | cons d r =>
    rw [List.takeWhile_cons] at h
    by_cases hd : (d == '\n') = true
    · rw [if_pos hd] at h
      simp only [List.length_cons, Nat.add_left_cancel_iff] at h
      exact ⟨r, by rw [show d = '\n' from by simpa using hd], by omega⟩
    · rw [if_neg hd] at h
      simp at h

theorem collapseNLAux_id : ∀ (fuel : Nat) (t : Str), t.length ≤ fuel →
    noTriple t = true → collapseNLAux fuel t = t := by
  intro fuel
  induction fuel with
  | zero =>
    intro t ht _
    have ht0 : t = [] := List.length_eq_zero.1 (Nat.le_zero.1 ht)
    subst ht0
    rfl
  | succ n ih =>
    intro t ht hnt
    cases t with
    | nil => rw [collapseNLAux]
    | cons c rest =>
      have hrl : rest.length ≤ n := by
        simp only [List.length_cons] at ht
        omega
      rw [collapseNLAux]
      by_cases hc : c = '\n'
      · rw [if_pos hc]
        subst hc
        by_cases h2 : 2 ≤ (rest.takeWhile (fun x => x == '\n')).length
        · exfalso
          obtain ⟨r2, rfl⟩ := takeWhile_nl_two h2
          rw [noTriple, show cs "\n\n\n" = ['\n', '\n', '\n'] from rfl,
            containsSub,
            show startsWith ['\n', '\n', '\n'] ('\n' :: '\n' :: '\n' :: r2) = true
              from by rw [startsWith, startsWith, startsWith]; simp [startsWith]]
            at hnt
          simp at hnt
        · rw [if_neg (by omega :
            ¬ 1 + (rest.takeWhile (fun x => x == '\n')).length ≥ 3)]
          cases htk : (rest.takeWhile (fun x => x == '\n')).length with
          | zero =>
            rw [takeWhile_nil_dropWhile htk, ih rest hrl (noTriple_cons hnt)]
            rfl
          | succ m =>
            have hm : m = 0 := by omega
            subst hm
            obtain ⟨r2, rfl, htk2⟩ := takeWhile_nl_one htk
            have hdw : ('\n' :: r2).dropWhile (fun x => x == '\n') = r2 := by
              rw [List.dropWhile_cons, if_pos (by simp)]
              exact takeWhile_nil_dropWhile htk2
            rw [hdw, ih r2 (by simp only [List.length_cons] at hrl; omega)
              (noTriple_cons (noTriple_cons hnt))]
            rfl
      · rw [if_neg hc, ih rest hrl (noTriple_cons hnt)]

theorem removeDelimitedAux_id (op cl : Str) (fuel : Nat) (t : Str)
    (h : hasSpanMatch op cl t = false) : removeDelimitedAux op cl fuel t = t := by
  cases fuel with
  | zero => rfl
  | succ n =>
    rw [removeDelimitedAux]
    rw [hasSpanMatch] at h
    cases hf : findCI op t with
    | none => rfl
    | some i =>
      rw [hf] at h
      dsimp only at h
      dsimp only
      cases hc : findCI cl (t.drop (i + op.length)) with
      | none => rfl
      | some j => rw [hc] at h; simp at h

theorem removeDelimited_id {op cl t : Str} (h : hasSpanMatch op cl t = false) :
    removeDelimited op cl t = t :=
  removeDelimitedAux_id op cl t.length t h

theorem removeFenceAux_id (fuel : Nat) (t : Str)
    (h : hasFenceMatch t = false) : removeFenceAux fuel t = t := by
  cases fuel with
  | zero => rfl
  | succ n =>
    rw [removeFenceAux]
    rw [hasFenceMatch] at h
    cases hf : findCI2 (cs "```think") (cs "```reasoning") t with
    | none => rfl
    | some r =>
      rcases r with ⟨i, L⟩
      rw [hf] at h
      dsimp only at h
      dsimp only
      cases hc : findCI (cs "```") (t.drop (i + L)) with
      | none => rfl
      | some j => rw [hc] at h; simp at h

theorem removeFence_id {t : Str} (h : hasFenceMatch t = false) :
    removeFence t = t :=
  removeFenceAux_id t.length t h

theorem lineStripAux_id : ∀ (fuel : Nat) (anchor : Bool) (t : Str),
    hasLineMatch anchor t = false → lineStripAux fuel anchor t = t := by
  intro fuel
  induction fuel with
  | zero => intro anchor t _; rfl
  | succ n ih =>
    intro anchor t h
    rw [hasLineMatch.eq_def, Bool.or_eq_false_iff] at h
    obtain ⟨h1, h2⟩ := h
    rw [lineStripAux.eq_def]
    dsimp only
    cases anchor with
    | false =>
      rw [if_neg (by simp)]
      cases t with
      | nil => rfl
      | cons c rest =>
        dsimp only at h2 ⊢
        rw [ih (c == '\n') rest h2]
    | true =>
      have hlm : lineMatchLen t = none := by
        simp only [Bool.true_and] at h1
        exact Option.not_isSome_iff_eq_none.1 (by simp [h1])
      rw [if_pos rfl, hlm]
      dsimp only
      cases t with
      | nil => rfl
      | cons c rest =>
        dsimp only at h2 ⊢
        rw [ih (c == '\n') rest h2]

theorem lineStrip_id {t : Str} (h : hasLineMatch true t = false) :
    lineStrip t = t :=
  lineStripAux_id t.length true t h

/-- Does any removal pattern of `_strip_think_blocks` still match in `s`?  -/
def hasStripPattern (s : Str) : Bool :=
  hasSpanMatch (cs "<think>") (cs "</think>") s ||
  hasSpanMatch (cs "<reasoning>") (cs "</reasoning>") s ||
  hasFenceMatch s ||
  hasLineMatch true s

/-- C1 (amended): `_strip_think_blocks` is not idempotent in general
(removing a span can splice together a new one), but it is idempotent on
every input whose first application leaves no further occurrence of any
removal pattern: the output is always trimmed and free of triple newlines,
so only a fresh pattern match can change a second application. -/
theorem c1_strip_idempotent_amended (s : Str)
    (h : hasStripPattern (strip_think_blocks s) = false) :
    strip_think_blocks (strip_think_blocks s) = strip_think_blocks s := by
  rw [hasStripPattern] at h
  simp only [Bool.or_eq_false_iff] at h
  obtain ⟨⟨⟨h1, h2⟩, h3⟩, h4⟩ := h
  have hz : strip_think_blocks s =
      pyStrip (collapseNL (lineStrip (removeFence
        (removeDelimited (cs "<reasoning>") (cs "</reasoning>")
          (removeDelimited (cs "<think>") (cs "</think>") s))))) := rfl
  conv_lhs => rw [show strip_think_blocks (strip_think_blocks s) =
    pyStrip (collapseNL (lineStrip (removeFence
      (removeDelimited (cs "<reasoning>") (cs "</reasoning>")
        (removeDelimited (cs "<think>") (cs "</think>")
          (strip_think_blocks s)))))) from rfl]
  rw [removeDelimited_id h1, removeDelimited_id h2, removeFence_id h3,
    lineStrip_id h4]
  have hnt : noTriple (strip_think_blocks s) = true := by
    rw [hz]
    exact noTriple_pyStrip (collapseNLAux_noTriple _ _ le_rfl)
  rw [show collapseNL (strip_think_blocks s) =
    collapseNLAux (strip_think_blocks s).length (strip_think_blocks s) from rfl]
  rw [collapseNLAux_id _ _ le_rfl hnt]
  conv_lhs => rw [hz]
  rw [pyStrip_idem]
  exact hz.symm

/-- C1 counterexample: removing the inner span of
`<th<think>x</think>ink>y</think>` splices together a fresh
`<think>y</think>` span, so one application leaves text that a second
application removes entirely — `strip` is not idempotent. -/
theorem c1_counterexample :
    strip_think_blocks (cs "<th<think>x</think>ink>y</think>") =
      cs "<think>y</think>" ∧
    strip_think_blocks (strip_think_blocks
      (cs "<th<think>x</think>ink>y</think>")) = [] ∧
    (cs "<think>y</think>" : Str) ≠ [] :=
  ⟨rfl, rfl, by decide⟩

/-- Witness for C1 (amended) at `<think>x</think>Hello`, whose stripped
form `Hello` contains no removal pattern. -/
theorem c1_strip_idempotent_amended_witness :
    hasStripPattern (strip_think_blocks (cs "<think>x</think>Hello")) = false ∧
    strip_think_blocks (strip_think_blocks (cs "<think>x</think>Hello")) =
      strip_think_blocks (cs "<think>x</think>Hello") :=
  ⟨by decide, c1_strip_idempotent_amended _ (by decide)⟩
